import Mathlib

/-!
Verification of the device-abstraction and execution layer in
`k2/csrc/context.h`: the device-copy classifier, the resizable `Region`
buffer with its power-of-two growth heuristic, the host path of the
`Eval`/`Eval2` dispatch functions, and the thread-local CUDA stream
override stack.

Machine integers are modelled as `Nat` (for `size_t` and `cudaStream_t`,
which is an opaque pointer value) and `Int` (for `int32_t` counts);
none of the verified properties depend on wrap-around behaviour.
CUDA kernel launches are outside the model: the device branch of the
dispatch functions is represented by `Option.none`, and the claims
verified here only concern the host (sequential) branch and the
early-return guards, which the source executes before any launch.
-/

namespace K2

/-- `enum class DeviceType { kUnk, kCuda, kCpu }` from context.h. -/
inductive DeviceType where
  | kUnk
  | kCuda
  | kCpu
deriving DecidableEq, Repr

export DeviceType (kUnk kCuda kCpu)

/-- `enum MemoryCopyKind` from context.h. -/
inductive MemoryCopyKind where
  | MemcpyHostToHost
  | MemcpyHostToDevice
  | MemcpyDeviceToHost
  | MemcpyDeviceToDevice
  | MemcpyUnknown
deriving DecidableEq, Repr

export MemoryCopyKind (MemcpyHostToHost MemcpyHostToDevice MemcpyDeviceToHost
  MemcpyDeviceToDevice MemcpyUnknown)

/-- `cudaStream_t` is an opaque pointer-sized token; modelled as `Nat`.
`#define kCudaStreamInvalid ((cudaStream_t)(~((size_t)0)))`, i.e. the
all-ones 64-bit value. -/
def kCudaStreamInvalid : Nat := 2 ^ 64 - 1

/-- `GetMemoryCopyKind(src, dst)` from context.h, with the two `Context`
arguments represented by their device types (the function only calls
`GetDeviceType()` on them).  The `K2_LOG(FATAL)` branch terminates the
process (modelled from the spec: the `K2_LOG` macro lives in log.h, which
is outside the sources; the spec states a fatal log terminates), so it is
modelled as `none`; the `return MemcpyUnknown` after it is unreachable. -/
def GetMemoryCopyKind (src dst : DeviceType) : Option MemoryCopyKind :=
  if src = kCpu ∧ dst = kCpu then some MemcpyHostToHost
  else if src = kCpu ∧ dst = kCuda then some MemcpyHostToDevice
  else if src = kCuda ∧ dst = kCpu then some MemcpyDeviceToHost
  else if src = kCuda ∧ dst = kCuda then some MemcpyDeviceToDevice
  else none

/-- `class CudaStreamOverride` from context.h: the current override token
(`0x0` when no override has ever been installed) and the stack of pushed
stream tokens (`std::vector`, pushed at the back). -/
structure CudaStreamOverride where
  stream_override_ : Nat
  stack_ : List Nat
deriving DecidableEq, Repr

/-- The state of the default-constructed thread-local
`g_stream_override`: `stream_override_ = 0x0`, empty stack. -/
def CudaStreamOverride.init : CudaStreamOverride := ⟨0, []⟩

/-- `CudaStreamOverride::OverrideStream` from context.h. -/
def CudaStreamOverride.OverrideStream (st : CudaStreamOverride)
    (stream : Nat) : Nat :=
  if st.stream_override_ ≠ 0 ∧ stream ≠ kCudaStreamInvalid then
    st.stream_override_
  else
    stream

/-- `CudaStreamOverride::Push` from context.h: `stack_.push_back(stream);
stream_override_ = stream;`. -/
def CudaStreamOverride.Push (st : CudaStreamOverride)
    (stream : Nat) : CudaStreamOverride :=
  { stream_override_ := stream, stack_ := st.stack_ ++ [stream] }

/-- `CudaStreamOverride::Pop` from context.h: checks the stack is
non-empty and its back equals `stream` (a failed check is fatal, modelled
as `none`), then `stack_.pop_back()`.  Note the source does NOT write to
`stream_override_` here. -/
def CudaStreamOverride.Pop (st : CudaStreamOverride)
    (stream : Nat) : Option CudaStreamOverride :=
  if st.stack_ ≠ [] ∧ st.stack_.getLast? = some stream then
    some { st with stack_ := st.stack_.dropLast }
  else
    none

/-- Device memory of one `Context`, as observed through its allocator:
the list of live blocks (pointer value paired with byte contents) and the
next fresh pointer value.  Modelled from the spec: the concrete
`Context::Allocate` / `Context::Deallocate` implementations are virtual
and live outside the sources; the spec requires a fresh block on
`Allocate` (null for zero bytes, fatal on failure — failure is not
modelled) and release of a previously returned block on `Deallocate`
(null is a no-op). -/
structure Mem where
  blocks : List (Nat × List Nat)
  next : Nat
deriving DecidableEq, Repr

/-- Contents of the block at pointer `p` (empty if `p` is not live). -/
def Mem.get (m : Mem) (p : Nat) : List Nat :=
  (m.blocks.lookup p).getD []

/-- Replace the contents of the block at pointer `p`. -/
def Mem.set (m : Mem) (p : Nat) (v : List Nat) : Mem :=
  { m with blocks := m.blocks.map (fun b => if b.1 = p then (p, v) else b) }

/-- `Context::Allocate(bytes, &deleter_context)`: returns the pointer,
the deleter token and the new memory state.  Zero bytes returns the null
pointer (per the spec); fresh bytes are modelled as zero-filled (no claim
refers to uninitialised bytes).  The deleter token is an opaque value;
the model uses the pointer value itself. -/
def Allocate (m : Mem) (bytes : Nat) : Nat × Nat × Mem :=
  if bytes = 0 then (0, 0, m)
  else (m.next, m.next,
    { blocks := (m.next, List.replicate bytes 0) :: m.blocks,
      next := m.next + 1 })

/-- `Context::Deallocate(data, deleter_context)`: null is a no-op,
otherwise the block at `data` is released. -/
def Deallocate (m : Mem) (data deleter_context : Nat) : Mem :=
  if data = 0 then m
  else { m with blocks := m.blocks.filter (fun b => b.1 ≠ data) }

/-- `MemoryCopy(dst, src, count, kind)` from context.h: copies the first
`count` bytes of the block at `src` over the start of the block at `dst`
(the `kind` selects the cudaMemcpy direction, which does not affect the
byte-level result). -/
def MemoryCopy (m : Mem) (dst src count : Nat)
    (kind : MemoryCopyKind) : Mem :=
  m.set dst ((m.get src).take count ++ (m.get dst).drop count)

/-- First rounding loop in `Region::Extend`:
`while (i < new_size / 8) i <<= 3;`.
In the source `i` starts at `4` and only grows, so it is always positive;
the positivity conjunct in the guard records that and makes termination
evident, without changing the function on any reachable state. -/
def extendLoop8 (new_size i : Nat) : Nat :=
  if 0 < i ∧ i < new_size / 8 then extendLoop8 new_size (i * 8) else i
termination_by new_size / 8 - i
decreasing_by omega

/-- Second rounding loop in `Region::Extend`:
`while (i < new_size) i <<= 1;` (same positivity note as `extendLoop8`). -/
def extendLoop2 (new_size i : Nat) : Nat :=
  if 0 < i ∧ i < new_size then extendLoop2 new_size (i * 2) else i
termination_by new_size - i
decreasing_by omega

/-- The complete capacity rounding computation of `Region::Extend`:
`size_t i = 4; while (i < new_size / 8) i <<= 3; while (i < new_size)
i <<= 1; new_size = i;`. -/
def roundUpSize (new_size : Nat) : Nat :=
  extendLoop2 new_size (extendLoop8 new_size 4)

/-- `struct Region` from context.h.  The owning `Context` is represented
by its device type (the only observable `Extend` consults besides the
allocator, which is the `Mem` state passed alongside). -/
structure Region where
  context : DeviceType
  data : Nat
  deleter_context : Nat
  num_bytes : Nat
  bytes_used : Nat
deriving DecidableEq, Repr

/-- One observable allocator interaction performed by `Region::Extend`. -/
inductive MemEvent where
  | alloc (bytes ptr : Nat)
  | copy (dst src count : Nat)
  | dealloc (ptr deleter_context : Nat)
deriving DecidableEq, Repr

/-- Result of `Region::Extend`: the region state, the device memory
state, and the trace of allocator interactions performed. -/
structure ExtendResult where
  region : Region
  mem : Mem
  events : List MemEvent
deriving DecidableEq, Repr

/-- `Region::Extend(new_bytes_used)` from context.h.  Returns `none` when
the `K2_LOG(FATAL)` inside `GetMemoryCopyKind` fires (unknown device
type); otherwise the updated region/memory plus the event trace. -/
def Region.Extend (r : Region) (m : Mem) (new_bytes_used : Nat) :
    Option ExtendResult :=
  if new_bytes_used ≤ r.bytes_used then some ⟨r, m, []⟩
  else if r.num_bytes < new_bytes_used then
    let new_size := roundUpSize (max (r.num_bytes * 2) new_bytes_used)
    let a := Allocate m new_size
    let new_data := a.1
    let new_deleter_context := a.2.1
    let m1 := a.2.2
    match GetMemoryCopyKind r.context r.context with
    | none => none
    | some kind =>
      let m2 := MemoryCopy m1 new_data r.data r.bytes_used kind
      let m3 := Deallocate m2 r.data r.deleter_context
      some ⟨{ context := r.context, data := new_data,
              deleter_context := new_deleter_context,
              num_bytes := new_size, bytes_used := new_bytes_used },
            m3,
            [.alloc new_size new_data, .copy new_data r.data r.bytes_used,
             .dealloc r.data r.deleter_context]⟩
  else
    some ⟨{ r with bytes_used := new_bytes_used }, m, []⟩

/-- Host loop of `Eval(stream, n, lambda)`:
`for (int32_t i = 0; i < n; ++i) lambda(i);`.
The lambda is modelled as a state transformer `f : σ → Int → σ` so that
the sequence and order of invocations is fully observable (instantiating
`σ` with a trace type recovers the exact call sequence). -/
def evalLoop {σ : Type} (f : σ → Int → σ) (n i : Int) (s : σ) : σ :=
  if i < n then evalLoop f n (i + 1) (f s i) else s
termination_by (n - i).toNat
decreasing_by omega

/-- `Eval(cudaStream_t stream, int32_t n, LambdaT &lambda)` from
context.h.  The CUDA branch launches a kernel, which is outside the
model and represented by `none`; the claims verified here concern only
the `n <= 0` guard and the host branch. -/
def Eval {σ : Type} (stream : Nat) (n : Int) (f : σ → Int → σ)
    (s : σ) : Option σ :=
  if n ≤ 0 then some s
  else if stream = kCudaStreamInvalid then some (evalLoop f n 0 s)
  else none

/-- Host loop of the data-writing `Eval(stream, data, n, lambda)`:
`for (int32_t i = 0; i < n; ++i) data[i] = lambda(i);`.
(An out-of-range index would be undefined behaviour in the source;
`List.set` out of range is a no-op, and the theorems only speak about
indices inside the buffer.) -/
def evalDataLoop {α : Type} (f : Int → α) (n i : Int)
    (data : List α) : List α :=
  if i < n then evalDataLoop f n (i + 1) (data.set i.toNat (f i)) else data
termination_by (n - i).toNat
decreasing_by omega

/-- `Eval(cudaStream_t stream, T *data, int32_t n, LambdaT &lambda)` from
context.h (the data-writing overload; Lean cannot overload on arity, so
the model adds the `Data` suffix).  CUDA branch as in `Eval`. -/
def EvalData {α : Type} (stream : Nat) (data : List α) (n : Int)
    (f : Int → α) : Option (List α) :=
  if n ≤ 0 then some data
  else if stream = kCudaStreamInvalid then some (evalDataLoop f n 0 data)
  else none

/-- Inner host loop of `Eval2`:
`for (int32_t j = 0; j < n; ++j) lambda(i, j);`. -/
def eval2Inner {σ : Type} (f : σ → Int → Int → σ) (i n j : Int)
    (s : σ) : σ :=
  if j < n then eval2Inner f i n (j + 1) (f s i j) else s
termination_by (n - j).toNat
decreasing_by omega

/-- Outer host loop of `Eval2`:
`for (int32_t i = 0; i < m; ++i) { for (int32_t j = 0; j < n; ++j)
lambda(i, j); }`. -/
def eval2Outer {σ : Type} (f : σ → Int → Int → σ) (m n i : Int)
    (s : σ) : σ :=
  if i < m then eval2Outer f m n (i + 1) (eval2Inner f i n 0 s) else s
termination_by (m - i).toNat
decreasing_by omega

/-- `Eval2(cudaStream_t stream, int32_t m, int32_t n, LambdaT &lambda)`
from context.h.  CUDA branch as in `Eval`. -/
def Eval2 {σ : Type} (stream : Nat) (m n : Int)
    (f : σ → Int → Int → σ) (s : σ) : Option σ :=
  if m ≤ 0 ∨ n ≤ 0 then some s
  else if stream = kCudaStreamInvalid then some (eval2Outer f m n 0 s)
  else none

/-- The ascending list of integers in `[i, n)`; specification-side
description of the index sequence visited by the host loops. -/
def intsFrom (i n : Int) : List Int :=
  if i < n then i :: intsFrom (i + 1) n else []
termination_by (n - i).toNat
decreasing_by omega

/-- The row-major pair list `[0,m) × [0,n)` with the second component
varying fastest; specification-side description of the `Eval2` host
iteration. -/
def rowMajorPairs (m n : Int) : List (Int × Int) :=
  (intsFrom 0 m).flatMap (fun i => (intsFrom 0 n).map (fun j => (i, j)))

/-! ## Helper lemmas -/

/-- `x` is a power of two. -/
def IsPow2 (x : Nat) : Prop := ∃ k, x = 2 ^ k

theorem pow2_two_mul_le {a b : Nat} (ha : IsPow2 a) (hb : IsPow2 b)
    (h : a < b) : a * 2 ≤ b := by
  obtain ⟨x, rfl⟩ := ha
  obtain ⟨y, rfl⟩ := hb
  have hxy : x < y := (Nat.pow_lt_pow_iff_right (by omega)).mp h
  calc 2 ^ x * 2 = 2 ^ (x + 1) := by ring
    _ ≤ 2 ^ y := Nat.pow_le_pow_right (by omega) (by omega)

theorem extendLoop8_spec (n i : Nat) (hi : 0 < i) :
    i ≤ extendLoop8 n i ∧ (IsPow2 i → IsPow2 (extendLoop8 n i)) ∧
      ∀ q, n ≤ q → i ≤ q → extendLoop8 n i ≤ q := by
  rw [extendLoop8]
  split
  · next h2 =>
    have IH := extendLoop8_spec n (i * 8) (by omega)
    refine ⟨by omega, ?_, ?_⟩
    · rintro ⟨k, rfl⟩
      exact IH.2.1 ⟨k + 3, by ring⟩
    · intro q hq hiq
      exact IH.2.2 q hq (by omega)
  · exact ⟨le_refl i, fun h => h, fun q hq hiq => hiq⟩
termination_by n / 8 - i
decreasing_by omega

theorem extendLoop2_spec (n i : Nat) (hi : 0 < i) :
    n ≤ extendLoop2 n i ∧ i ≤ extendLoop2 n i ∧
      (IsPow2 i → IsPow2 (extendLoop2 n i)) ∧
      ∀ q, IsPow2 q → IsPow2 i → n ≤ q → i ≤ q → extendLoop2 n i ≤ q := by
  rw [extendLoop2]
  split
  · next h2 =>
    have IH := extendLoop2_spec n (i * 2) (by omega)
    refine ⟨IH.1, by omega, ?_, ?_⟩
    · rintro ⟨k, rfl⟩
      exact IH.2.2.1 ⟨k + 1, by ring⟩
    · intro q hq hpi hnq hiq
      exact IH.2.2.2 q hq (by obtain ⟨k, rfl⟩ := hpi; exact ⟨k + 1, by ring⟩)
        hnq (pow2_two_mul_le hpi hq (by omega))
  · next h2 => exact ⟨by omega, le_refl i, fun h => h,
      fun q _ _ _ hiq => hiq⟩
termination_by n - i
decreasing_by omega

/-- The capacity rounding of `Region::Extend` computes exactly the least
power of two that is at least `new_size` and at least `4`. -/
theorem roundUpSize_spec (n : Nat) :
    IsPow2 (roundUpSize n) ∧ n ≤ roundUpSize n ∧ 4 ≤ roundUpSize n ∧
      ∀ q, IsPow2 q → n ≤ q → 4 ≤ q → roundUpSize n ≤ q := by
  unfold roundUpSize
  have h8 := extendLoop8_spec n 4 (by omega)
  have hp8 : IsPow2 (extendLoop8 n 4) := h8.2.1 ⟨2, rfl⟩
  have h2 := extendLoop2_spec n (extendLoop8 n 4) (by omega)
  refine ⟨h2.2.2.1 hp8, h2.1, by have := h8.1; have := h2.2.1; omega, ?_⟩
  intro q hq hnq h4q
  exact h2.2.2.2 q hq hp8 hnq (h8.2.2 q hnq h4q)

theorem lookup_map_set (p : Nat) (v : List Nat) :
    ∀ bs : List (Nat × List Nat),
      (bs.map (fun b => if b.1 = p then (p, v) else b)).lookup p
        = (bs.lookup p).map (fun _ => v)
  | [] => by simp
  | (k, w) :: t => by
    by_cases hk : k = p
    · subst hk
      rw [List.map_cons, if_pos rfl, List.lookup_cons, List.lookup_cons]
      simp
    · rw [List.map_cons, if_neg hk, List.lookup_cons, List.lookup_cons,
        show (p == k) = false by simp [Ne.symm hk]]
      exact lookup_map_set p v t

theorem lookup_map_set_ne (p q : Nat) (v : List Nat) (hq : q ≠ p) :
    ∀ bs : List (Nat × List Nat),
      (bs.map (fun b => if b.1 = p then (p, v) else b)).lookup q
        = bs.lookup q
  | [] => by simp
  | (k, w) :: t => by
    by_cases hk : k = p
    · subst hk
      rw [List.map_cons, if_pos rfl, List.lookup_cons, List.lookup_cons,
        show (q == k) = false by simp [hq]]
      exact lookup_map_set_ne k q v hq t
    · rw [List.map_cons, if_neg hk, List.lookup_cons, List.lookup_cons]
      cases hqk : (q == k) with
      | true => rfl
      | false => exact lookup_map_set_ne p q v hq t

theorem lookup_filter_ne (p q : Nat) (hq : q ≠ p) :
    ∀ bs : List (Nat × List Nat),
      (bs.filter (fun b => b.1 ≠ p)).lookup q = bs.lookup q
  | [] => by simp
  | (k, w) :: t => by
    by_cases hk : k = p
    · subst hk
      rw [List.filter_cons_of_neg (by simp), List.lookup_cons,
        show (q == k) = false by simp [hq]]
      exact lookup_filter_ne k q hq t
    · rw [List.filter_cons_of_pos (by simp [hk]), List.lookup_cons,
        List.lookup_cons]
      cases hqk : (q == k) with
      | true => rfl
      | false => exact lookup_filter_ne p q hq t

theorem Mem.get_set_live (m : Mem) (p : Nat) (v w : List Nat)
    (h : m.blocks.lookup p = some w) : (m.set p v).get p = v := by
  unfold Mem.get Mem.set
  rw [lookup_map_set, h]
  rfl

theorem Mem.get_set_ne (m : Mem) (p q : Nat) (v : List Nat) (h : q ≠ p) :
    (m.set p v).get q = m.get q := by
  unfold Mem.get Mem.set
  rw [lookup_map_set_ne p q v h]

theorem Mem.get_dealloc_ne (m : Mem) (p tok q : Nat) (h : q ≠ p) :
    (Deallocate m p tok).get q = m.get q := by
  unfold Deallocate
  split
  · rfl
  · unfold Mem.get
    rw [lookup_filter_ne p q h]

/-- Explicit description of the reallocating branch of `Region::Extend`. -/
theorem Extend_realloc (r : Region) (m : Mem) (nbu : Nat)
    (kind : MemoryCopyKind)
    (h1 : r.bytes_used < nbu) (h2 : r.num_bytes < nbu)
    (hkind : GetMemoryCopyKind r.context r.context = some kind) :
    Region.Extend r m nbu =
      some ⟨⟨r.context, m.next, m.next,
             roundUpSize (max (r.num_bytes * 2) nbu), nbu⟩,
            Deallocate
              (MemoryCopy
                ⟨(m.next,
                  List.replicate (roundUpSize (max (r.num_bytes * 2) nbu)) 0)
                    :: m.blocks,
                  m.next + 1⟩
                m.next r.data r.bytes_used kind)
              r.data r.deleter_context,
            [.alloc (roundUpSize (max (r.num_bytes * 2) nbu)) m.next,
             .copy m.next r.data r.bytes_used,
             .dealloc r.data r.deleter_context]⟩ := by
  have hNS : 4 ≤ roundUpSize (max (r.num_bytes * 2) nbu) :=
    (roundUpSize_spec _).2.2.1
  unfold Region.Extend
  rw [if_neg (by omega), if_pos h2]
  simp only [Allocate, if_neg (show ¬ roundUpSize
    (max (r.num_bytes * 2) nbu) = 0 by omega), hkind]

/-- A context whose device type is known classifies a same-device copy
successfully. -/
theorem kind_same_of_ne_unk (d : DeviceType) (h : d ≠ kUnk) :
    ∃ kind, GetMemoryCopyKind d d = some kind := by
  cases d with
  | kUnk => exact absurd rfl h
  | kCuda => exact ⟨MemcpyDeviceToDevice, rfl⟩
  | kCpu => exact ⟨MemcpyHostToHost, rfl⟩

/-- The reallocating branch of `Region::Extend` on an unknown device
type is fatal. -/
theorem Extend_realloc_none (r : Region) (m : Mem) (nbu : Nat)
    (h1 : ¬ nbu ≤ r.bytes_used) (h2 : r.num_bytes < nbu)
    (hkind : GetMemoryCopyKind r.context r.context = none) :
    Region.Extend r m nbu = none := by
  unfold Region.Extend
  rw [if_neg h1, if_pos h2]
  simp only [hkind]

theorem Mem.get_alloc_cons_ne (m : Mem) (sz q : Nat) (h : q ≠ m.next) :
    Mem.get ⟨(m.next, List.replicate sz 0) :: m.blocks, m.next + 1⟩ q
      = m.get q := by
  unfold Mem.get
  rw [List.lookup_cons, show (q == m.next) = false by simp [h]]

theorem Mem.get_alloc_cons_self (m : Mem) (sz : Nat) :
    Mem.get ⟨(m.next, List.replicate sz 0) :: m.blocks, m.next + 1⟩ m.next
      = List.replicate sz 0 := by
  unfold Mem.get
  rw [List.lookup_cons]
  simp

/-! ## Claim theorems: Region -/

/-- C4: for every Region and every `b <= bytes_used`, `Extend(b)` is a
no-op: the region (data pointer, deleter token, `num_bytes`,
`bytes_used`), the device memory (hence the buffer contents), and the
event trace (no allocation, copy or deallocation) are all unchanged. -/
theorem extend_noop (r : Region) (m : Mem) (b : Nat)
    (h : b ≤ r.bytes_used) :
    Region.Extend r m b = some ⟨r, m, []⟩ := by
  unfold Region.Extend
  rw [if_pos h]

theorem extend_noop_witness :
    3 ≤ (Region.mk kCpu 1 0 8 5).bytes_used ∧
      Region.Extend (Region.mk kCpu 1 0 8 5) (Mem.mk [] 2) 3
        = some ⟨Region.mk kCpu 1 0 8 5, Mem.mk [] 2, []⟩ :=
  ⟨by decide, extend_noop (Region.mk kCpu 1 0 8 5) (Mem.mk [] 2) 3
    (by decide)⟩

/-- C3: for every Region satisfying `bytes_used <= num_bytes`,
`Extend(new_bytes_used)` preserves `bytes_used <= num_bytes` in every
branch (whenever it returns at all rather than dying fatally). -/
theorem extend_preserves_invariant (r : Region) (m : Mem) (nbu : Nat)
    (res : ExtendResult)
    (hinv : r.bytes_used ≤ r.num_bytes)
    (h : Region.Extend r m nbu = some res) :
    res.region.bytes_used ≤ res.region.num_bytes := by
  by_cases h1 : nbu ≤ r.bytes_used
  · rw [extend_noop r m nbu h1] at h
    simp only [Option.some.injEq] at h
    subst h
    exact hinv
  · by_cases h2 : r.num_bytes < nbu
    · cases hk : GetMemoryCopyKind r.context r.context with
      | none =>
        rw [Extend_realloc_none r m nbu h1 h2 hk] at h
        exact absurd h (by simp)
      | some kind =>
        rw [Extend_realloc r m nbu kind (by omega) h2 hk] at h
        simp only [Option.some.injEq] at h
        subst h
        have hs := roundUpSize_spec (max (r.num_bytes * 2) nbu)
        have : nbu ≤ max (r.num_bytes * 2) nbu := le_max_right _ _
        simp only []
        omega
    · unfold Region.Extend at h
      rw [if_neg h1, if_neg h2] at h
      simp only [Option.some.injEq] at h
      subst h
      simp only []
      omega

theorem extend_preserves_invariant_witness :
    5 ≤ (Region.mk kCpu 1 0 8 5).num_bytes ∧
      (ExtendResult.mk (Region.mk kCpu 1 0 8 7) (Mem.mk [] 2)
          []).region.bytes_used
        ≤ (ExtendResult.mk (Region.mk kCpu 1 0 8 7) (Mem.mk [] 2)
          []).region.num_bytes :=
  ⟨by decide,
    extend_preserves_invariant (Region.mk kCpu 1 0 8 5) (Mem.mk [] 2) 7
      (ExtendResult.mk (Region.mk kCpu 1 0 8 7) (Mem.mk [] 2) [])
      (by decide) (by decide)⟩

/-- C1 (amended): for a Region with `bytes_used <= num_bytes` backed by a
live block of at least `bytes_used` bytes, and `new_bytes_used >
num_bytes`, `Extend(new_bytes_used)` reallocates: the new capacity is the
next power of two that is at least `max(2 * num_bytes, new_bytes_used)`
AND AT LEAST 4 (the doubling search starts at 4); exactly the first
`bytes_used` bytes of the old block are copied to the new block (the
pre-growth contents are preserved); the old block is deallocated through
the owning Context with the stored deleter token; and at exit
`bytes_used == new_bytes_used`. -/
theorem extend_realloc_spec (r : Region) (m : Mem) (nbu : Nat)
    (hinv : r.bytes_used ≤ r.num_bytes)
    (hgrow : r.num_bytes < nbu)
    (hctx : r.context ≠ kUnk)
    (hfresh : r.data < m.next)
    (hlen : r.bytes_used ≤ (m.get r.data).length) :
    (Region.Extend r m nbu).isSome = true ∧
      ∀ res, Region.Extend r m nbu = some res →
        IsPow2 res.region.num_bytes ∧
        max (r.num_bytes * 2) nbu ≤ res.region.num_bytes ∧
        4 ≤ res.region.num_bytes ∧
        (∀ q, IsPow2 q → max (r.num_bytes * 2) nbu ≤ q → 4 ≤ q →
          res.region.num_bytes ≤ q) ∧
        res.region.bytes_used = nbu ∧
        res.region.data ≠ r.data ∧
        res.region.context = r.context ∧
        (res.mem.get res.region.data).take r.bytes_used
          = (m.get r.data).take r.bytes_used ∧
        res.events = [.alloc res.region.num_bytes res.region.data,
                      .copy res.region.data r.data r.bytes_used,
                      .dealloc r.data r.deleter_context] := by
  obtain ⟨kind, hk⟩ := kind_same_of_ne_unk r.context hctx
  rw [Extend_realloc r m nbu kind (by omega) hgrow hk]
  refine ⟨rfl, ?_⟩
  intro res h
  simp only [Option.some.injEq] at h
  subst h
  have hs := roundUpSize_spec (max (r.num_bytes * 2) nbu)
  refine ⟨hs.1, hs.2.1, hs.2.2.1, hs.2.2.2, rfl,
    by show (m.next : Nat) ≠ r.data; omega, rfl, ?_, rfl⟩
  have hne : (m.next : Nat) ≠ r.data := by omega
  simp only []
  rw [Mem.get_dealloc_ne _ _ _ _ hne]
  unfold MemoryCopy
  rw [Mem.get_set_live _ _ _
    (List.replicate (roundUpSize (max (r.num_bytes * 2) nbu)) 0)
    (by rw [List.lookup_cons]; simp)]
  rw [Mem.get_alloc_cons_ne m _ r.data (by omega)]
  rw [List.take_left' (by rw [List.length_take]; omega)]

theorem extend_realloc_spec_witness :
    ((Region.mk kCpu 5 9 10 10).bytes_used
        ≤ (Region.mk kCpu 5 9 10 10).num_bytes ∧
      (Region.mk kCpu 5 9 10 10).num_bytes < 20 ∧
      (Region.mk kCpu 5 9 10 10).context ≠ kUnk ∧
      (Region.mk kCpu 5 9 10 10).data
        < (Mem.mk [(5, [1, 2, 3, 4, 5, 6, 7, 8, 9, 10])] 6).next ∧
      (Region.mk kCpu 5 9 10 10).bytes_used
        ≤ ((Mem.mk [(5, [1, 2, 3, 4, 5, 6, 7, 8, 9, 10])] 6).get
            (Region.mk kCpu 5 9 10 10).data).length) ∧
      ((Region.Extend (Region.mk kCpu 5 9 10 10)
          (Mem.mk [(5, [1, 2, 3, 4, 5, 6, 7, 8, 9, 10])] 6) 20).isSome
          = true ∧
        ∀ res, Region.Extend (Region.mk kCpu 5 9 10 10)
            (Mem.mk [(5, [1, 2, 3, 4, 5, 6, 7, 8, 9, 10])] 6) 20
            = some res →
          IsPow2 res.region.num_bytes ∧
          max ((Region.mk kCpu 5 9 10 10).num_bytes * 2) 20
            ≤ res.region.num_bytes ∧
          4 ≤ res.region.num_bytes ∧
          (∀ q, IsPow2 q →
            max ((Region.mk kCpu 5 9 10 10).num_bytes * 2) 20 ≤ q →
            4 ≤ q → res.region.num_bytes ≤ q) ∧
          res.region.bytes_used = 20 ∧
          res.region.data ≠ (Region.mk kCpu 5 9 10 10).data ∧
          res.region.context = (Region.mk kCpu 5 9 10 10).context ∧
          (res.mem.get res.region.data).take
              (Region.mk kCpu 5 9 10 10).bytes_used
            = ((Mem.mk [(5, [1, 2, 3, 4, 5, 6, 7, 8, 9, 10])] 6).get
                (Region.mk kCpu 5 9 10 10).data).take
              (Region.mk kCpu 5 9 10 10).bytes_used ∧
          res.events = [.alloc res.region.num_bytes res.region.data,
                        .copy res.region.data (Region.mk kCpu 5 9 10 10).data
                          (Region.mk kCpu 5 9 10 10).bytes_used,
                        .dealloc (Region.mk kCpu 5 9 10 10).data
                          (Region.mk kCpu 5 9 10 10).deleter_context]) :=
  ⟨⟨by decide, by decide, by decide, by decide, by decide⟩,
    extend_realloc_spec (Region.mk kCpu 5 9 10 10)
      (Mem.mk [(5, [1, 2, 3, 4, 5, 6, 7, 8, 9, 10])] 6) 20
      (by decide) (by decide) (by decide) (by decide) (by decide)⟩

/-- C1 (counterexample to the claim as stated): a Region with
`num_bytes = 0` extended to `new_bytes_used = 1` gets capacity 4, yet 1
is a power of two at least `max(2 * num_bytes, new_bytes_used) = 1` and
`1 < 4`, so the new capacity is NOT "the next power of two that is at
least `max(2 * num_bytes, new_bytes_used)`". -/
theorem extend_next_pow2_counterexample :
    Region.Extend (Region.mk kCpu 5 9 0 0) (Mem.mk [(5, [])] 6) 1
      = some ⟨Region.mk kCpu 6 6 4 1, Mem.mk [(6, [0, 0, 0, 0])] 7,
          [.alloc 4 6, .copy 6 5 0, .dealloc 5 9]⟩
    ∧ IsPow2 1 ∧ max ((Region.mk kCpu 5 9 0 0).num_bytes * 2) 1 ≤ 1
    ∧ (1 : Nat) < 4 := by
  refine ⟨?_, ⟨0, rfl⟩, by decide, by omega⟩
  rw [Extend_realloc (Region.mk kCpu 5 9 0 0) (Mem.mk [(5, [])] 6) 1
    MemcpyHostToHost (by decide) (by decide) rfl]
  rw [show max ((Region.mk kCpu 5 9 0 0).num_bytes * 2) 1 = 1 from by
    decide]
  rw [show roundUpSize 1 = 4 from by
    simp [roundUpSize, extendLoop8, extendLoop2]]
  decide

/-- C10: whenever `Extend` must reallocate, the doubling search starts at
4, so the new capacity is the least power of two that is at least
`max(2 * num_bytes, new_bytes_used)` and at least 4; in particular when
that max is at most 3 the resulting capacity is 4, not the smaller power
of two. -/
theorem extend_capacity_floor (r : Region) (m : Mem) (nbu : Nat)
    (hinv : r.bytes_used ≤ r.num_bytes)
    (hgrow : r.num_bytes < nbu)
    (hctx : r.context ≠ kUnk) :
    (Region.Extend r m nbu).map (fun res => res.region.num_bytes)
      = some (roundUpSize (max (r.num_bytes * 2) nbu)) ∧
    IsPow2 (roundUpSize (max (r.num_bytes * 2) nbu)) ∧
    max (r.num_bytes * 2) nbu ≤ roundUpSize (max (r.num_bytes * 2) nbu) ∧
    4 ≤ roundUpSize (max (r.num_bytes * 2) nbu) ∧
    (∀ q, IsPow2 q → max (r.num_bytes * 2) nbu ≤ q → 4 ≤ q →
      roundUpSize (max (r.num_bytes * 2) nbu) ≤ q) ∧
    (max (r.num_bytes * 2) nbu ≤ 3 →
      (Region.Extend r m nbu).map (fun res => res.region.num_bytes)
        = some 4) := by
  obtain ⟨kind, hk⟩ := kind_same_of_ne_unk r.context hctx
  rw [Extend_realloc r m nbu kind (by omega) hgrow hk]
  have hs := roundUpSize_spec (max (r.num_bytes * 2) nbu)
  refine ⟨rfl, hs.1, hs.2.1, hs.2.2.1, hs.2.2.2, ?_⟩
  intro hmax3
  have h4 : roundUpSize (max (r.num_bytes * 2) nbu) ≤ 4 :=
    hs.2.2.2 4 ⟨2, rfl⟩ (by omega) (by omega)
  show some (roundUpSize (max (r.num_bytes * 2) nbu)) = some 4
  have h5 := hs.2.2.1
  congr 1
  omega

theorem extend_capacity_floor_witness :
    ((Region.mk kCpu 5 9 0 0).bytes_used
        ≤ (Region.mk kCpu 5 9 0 0).num_bytes ∧
      (Region.mk kCpu 5 9 0 0).num_bytes < 1 ∧
      (Region.mk kCpu 5 9 0 0).context ≠ kUnk ∧
      max ((Region.mk kCpu 5 9 0 0).num_bytes * 2) 1 ≤ 3) ∧
      (Region.Extend (Region.mk kCpu 5 9 0 0) (Mem.mk [(5, [])] 6) 1).map
          (fun res => res.region.num_bytes)
        = some 4 :=
  ⟨⟨by decide, by decide, by decide, by decide⟩,
    (extend_capacity_floor (Region.mk kCpu 5 9 0 0) (Mem.mk [(5, [])] 6) 1
      (by decide) (by decide) (by decide)).2.2.2.2.2 (by decide)⟩

/-! ## Claim theorems: copy classifier and stream override -/

/-- C5: `GetMemoryCopyKind(src, dst)` returns `MemcpyHostToHost` exactly
when both contexts are host (kCpu), `MemcpyHostToDevice` exactly for
host-to-accelerator, `MemcpyDeviceToHost` exactly for accelerator-to-host,
`MemcpyDeviceToDevice` exactly when both are accelerator (kCuda), and is
fatal (modelled `none`, never a silently returned value) exactly when
either device type is unset/unknown. -/
theorem get_memory_copy_kind_spec (src dst : DeviceType) :
    (GetMemoryCopyKind src dst = some MemcpyHostToHost
      ↔ src = kCpu ∧ dst = kCpu) ∧
    (GetMemoryCopyKind src dst = some MemcpyHostToDevice
      ↔ src = kCpu ∧ dst = kCuda) ∧
    (GetMemoryCopyKind src dst = some MemcpyDeviceToHost
      ↔ src = kCuda ∧ dst = kCpu) ∧
    (GetMemoryCopyKind src dst = some MemcpyDeviceToDevice
      ↔ src = kCuda ∧ dst = kCuda) ∧
    (GetMemoryCopyKind src dst = none
      ↔ src = kUnk ∨ dst = kUnk) := by
  cases src <;> cases dst <;> decide

/-- C2 (the code contradicts the claim and the documented intent of the
scoped `With` construct): pushing tokens 1 then 2, then popping 2 then 1,
leaves the stack as before but does NOT restore the active override:
`Pop` never writes `stream_override_`, so after both pops
`stream_override_` is still 2 and a dispatch requesting stream 3 is
overridden to 2, while in the pre-push state it resolved to 3.  The
out-of-order pop (popping 1 while 2 is on top) IS fatal, as claimed. -/
theorem stream_override_pop_bug :
    CudaStreamOverride.init.stream_override_ = 0 ∧
    CudaStreamOverride.init.OverrideStream 3 = 3 ∧
    ((CudaStreamOverride.init.Push 1).Push 2).Pop 2
      = some (CudaStreamOverride.mk 2 [1]) ∧
    (CudaStreamOverride.mk 2 [1]).Pop 1
      = some (CudaStreamOverride.mk 2 []) ∧
    (CudaStreamOverride.mk 2 []).stack_ = CudaStreamOverride.init.stack_ ∧
    (CudaStreamOverride.mk 2 []).stream_override_
      ≠ CudaStreamOverride.init.stream_override_ ∧
    (CudaStreamOverride.mk 2 []).OverrideStream 3 = 2 ∧
    ((CudaStreamOverride.init.Push 1).Push 2).Pop 1 = none := by
  decide

/-- C9: after `Push(t)` the pushed token is both the top of the stack and
the active override register; `OverrideStream(s)` returns that token when
an override is active (override register non-null, the code's notion of
an active override) and `s` is not the invalid/host sentinel, and returns
`s` unchanged otherwise; in particular a dispatch explicitly requesting
the invalid/host sentinel is never overridden, in any state. -/
theorem override_stream_spec (st : CudaStreamOverride) (t s : Nat) :
    ((st.Push t).stream_override_ = t ∧
      (st.Push t).stack_.getLast? = some t) ∧
    (t ≠ 0 → s ≠ kCudaStreamInvalid → (st.Push t).OverrideStream s = t) ∧
    (t = 0 → (st.Push t).OverrideStream s = s) ∧
    st.OverrideStream kCudaStreamInvalid = kCudaStreamInvalid := by
  refine ⟨⟨rfl, by simp [CudaStreamOverride.Push]⟩, ?_, ?_, ?_⟩
  · intro ht hs
    simp [CudaStreamOverride.Push, CudaStreamOverride.OverrideStream,
      ht, hs]
  · intro ht
    simp [CudaStreamOverride.Push, CudaStreamOverride.OverrideStream, ht]
  · simp [CudaStreamOverride.OverrideStream]

theorem override_stream_spec_witness :
    (7 ≠ 0 ∧ 3 ≠ kCudaStreamInvalid) ∧
      (CudaStreamOverride.init.Push 7).OverrideStream 3 = 7 ∧
      CudaStreamOverride.init.OverrideStream kCudaStreamInvalid
        = kCudaStreamInvalid :=
  ⟨⟨by decide, by decide⟩,
    (override_stream_spec CudaStreamOverride.init 7 3).2.1
      (by decide) (by decide),
    (override_stream_spec CudaStreamOverride.init 7 3).2.2.2⟩

/-! ## Lemmas about the host iteration order -/

theorem intsFrom_mem (i n x : Int) : x ∈ intsFrom i n ↔ i ≤ x ∧ x < n := by
  rw [intsFrom]
  split
  · next h =>
    rw [List.mem_cons, intsFrom_mem (i + 1) n x]
    omega
  · next h =>
    simp only [List.not_mem_nil, false_iff]
    omega
termination_by (n - i).toNat
decreasing_by omega

theorem intsFrom_pairwise (i n : Int) :
    (intsFrom i n).Pairwise (· < ·) := by
  rw [intsFrom]
  split
  · next h =>
    refine List.Pairwise.cons ?_ (intsFrom_pairwise (i + 1) n)
    intro y hy
    have := (intsFrom_mem (i + 1) n y).mp hy
    omega
  · exact List.Pairwise.nil
termination_by (n - i).toNat
decreasing_by omega

theorem evalLoop_eq_foldl {σ : Type} (f : σ → Int → σ) (n i : Int)
    (s : σ) : evalLoop f n i s = List.foldl f s (intsFrom i n) := by
  by_cases h : i < n
  · rw [evalLoop, if_pos h, intsFrom, if_pos h, List.foldl_cons,
      evalLoop_eq_foldl f n (i + 1) (f s i)]
  · rw [evalLoop, if_neg h, intsFrom, if_neg h]
    rfl
termination_by (n - i).toNat
decreasing_by omega

theorem evalDataLoop_length {α : Type} (g : Int → α) (n i : Int)
    (data : List α) :
    (evalDataLoop g n i data).length = data.length := by
  by_cases h : i < n
  · rw [evalDataLoop, if_pos h,
      evalDataLoop_length g n (i + 1) (data.set i.toNat (g i))]
    exact List.length_set ..
  · rw [evalDataLoop, if_neg h]
termination_by (n - i).toNat
decreasing_by omega

theorem evalDataLoop_getElem {α : Type} (g : Int → α) (n i : Int)
    (data : List α) (k : Nat) (hi : 0 ≤ i) (hk : k < data.length) :
    (evalDataLoop g n i data)[k]? =
      if i ≤ (k : Int) ∧ (k : Int) < n then some (g k) else data[k]? := by
  by_cases h : i < n
  · rw [evalDataLoop, if_pos h,
      evalDataLoop_getElem g n (i + 1) (data.set i.toNat (g i)) k
        (by omega) (by rw [List.length_set]; exact hk)]
    by_cases hk2 : (k : Int) = i
    · rw [if_neg (by omega), if_pos (by omega)]
      rw [← hk2]
      simp [List.getElem?_set_self hk]
    · by_cases hcond : i ≤ (k : Int) ∧ (k : Int) < n
      · rw [if_pos (by omega), if_pos hcond]
      · rw [if_neg (by omega), if_neg hcond,
          List.getElem?_set_ne (show i.toNat ≠ k by omega)]
  · rw [evalDataLoop, if_neg h, if_neg (by omega)]
termination_by (n - i).toNat
decreasing_by omega

theorem eval2Inner_eq_foldl {σ : Type} (f : σ → Int → Int → σ)
    (i n j : Int) (s : σ) :
    eval2Inner f i n j s
      = List.foldl (fun a jj => f a i jj) s (intsFrom j n) := by
  by_cases h : j < n
  · rw [eval2Inner, if_pos h, intsFrom, if_pos h, List.foldl_cons,
      eval2Inner_eq_foldl f i n (j + 1) (f s i j)]
  · rw [eval2Inner, if_neg h, intsFrom, if_neg h]
    rfl
termination_by (n - j).toNat
decreasing_by omega

theorem eval2Outer_eq_foldl {σ : Type} (f : σ → Int → Int → σ)
    (m n i : Int) (s : σ) :
    eval2Outer f m n i s
      = List.foldl (fun a p => f a p.1 p.2) s
          ((intsFrom i m).flatMap
            (fun r => (intsFrom 0 n).map (fun j => (r, j)))) := by
  by_cases h : i < m
  · rw [eval2Outer, if_pos h, intsFrom, if_pos h, List.flatMap_cons,
      List.foldl_append, eval2Outer_eq_foldl f m n (i + 1) _]
    congr 1
    rw [List.foldl_map]
    exact eval2Inner_eq_foldl f i n 0 s
  · rw [eval2Outer, if_neg h, intsFrom, if_neg h]
    rfl
termination_by (m - i).toNat
decreasing_by omega

theorem rowMajorPairs_mem (m n : Int) (p : Int × Int) :
    p ∈ rowMajorPairs m n ↔
      0 ≤ p.1 ∧ p.1 < m ∧ 0 ≤ p.2 ∧ p.2 < n := by
  unfold rowMajorPairs
  rw [List.mem_flatMap]
  constructor
  · rintro ⟨i, hi, hp⟩
    rw [List.mem_map] at hp
    obtain ⟨j, hj, rfl⟩ := hp
    have h1 := (intsFrom_mem 0 m i).mp hi
    have h2 := (intsFrom_mem 0 n j).mp hj
    exact ⟨h1.1, h1.2, h2.1, h2.2⟩
  · rintro ⟨h1, h2, h3, h4⟩
    exact ⟨p.1, (intsFrom_mem 0 m p.1).mpr ⟨h1, h2⟩,
      List.mem_map.mpr ⟨p.2, (intsFrom_mem 0 n p.2).mpr ⟨h3, h4⟩, rfl⟩⟩

theorem rowMajorPairs_pairwise (m n : Int) :
    (rowMajorPairs m n).Pairwise
      (fun p q => p.1 < q.1 ∨ (p.1 = q.1 ∧ p.2 < q.2)) := by
  unfold rowMajorPairs
  rw [List.pairwise_flatMap]
  constructor
  · intro a ha
    rw [List.pairwise_map]
    exact (intsFrom_pairwise 0 n).imp (fun h => Or.inr ⟨rfl, h⟩)
  · refine (intsFrom_pairwise 0 m).imp ?_
    intro a b hab x hx y hy
    rw [List.mem_map] at hx hy
    obtain ⟨j1, _, rfl⟩ := hx
    obtain ⟨j2, _, rfl⟩ := hy
    exact Or.inl hab

theorem rowMajorPairs_nodup (m n : Int) : (rowMajorPairs m n).Nodup :=
  (rowMajorPairs_pairwise m n).imp (by
    rintro p q h rfl
    rcases h with h | ⟨_, h⟩ <;> exact absurd h (lt_irrefl _))

/-! ## Claim theorems: Eval dispatch -/

/-- C6: with the invalid/host sentinel stream, `Eval(stream, n, f)`
executes `f(i)` for every `i` in `[0, n)` sequentially in ascending
order (the result is the left fold of `f` over the strictly increasing
enumeration of `[0, n)`), and the data-writing variant writes
`data[i] = f(i)` for every index `i` in `[0, n)` inside the buffer,
leaving other elements and the length unchanged; concretely, a buffer of
five 7s with `n = 5` and `f(i) = i*i` ends as `[0, 1, 4, 9, 16]`. -/
theorem eval_host_spec {σ α : Type} (f : σ → Int → σ) (s : σ) (n : Int)
    (data : List α) (g : Int → α) :
    Eval kCudaStreamInvalid n f s
      = some (List.foldl f s (intsFrom 0 n)) ∧
    (intsFrom 0 n).Pairwise (· < ·) ∧
    (∀ x : Int, x ∈ intsFrom 0 n ↔ 0 ≤ x ∧ x < n) ∧
    (EvalData kCudaStreamInvalid data n g).isSome = true ∧
    (∀ res, EvalData kCudaStreamInvalid data n g = some res →
      res.length = data.length ∧
      ∀ k : Nat, k < data.length →
        res[k]? = if (k : Int) < n then some (g k) else data[k]?) ∧
    EvalData kCudaStreamInvalid ([7, 7, 7, 7, 7] : List Int) 5
        (fun i => i * i)
      = some [0, 1, 4, 9, 16] := by
  refine ⟨?_, intsFrom_pairwise 0 n, fun x => intsFrom_mem 0 n x,
    ?_, ?_, ?_⟩
  · unfold Eval
    by_cases h : n ≤ 0
    · rw [if_pos h, intsFrom, if_neg (by omega)]
      rfl
    · rw [if_neg h, if_pos rfl, evalLoop_eq_foldl]
  · unfold EvalData
    by_cases h : n ≤ 0
    · rw [if_pos h]
      rfl
    · rw [if_neg h, if_pos rfl]
      rfl
  · intro res h
    unfold EvalData at h
    by_cases hn : n ≤ 0
    · rw [if_pos hn] at h
      simp only [Option.some.injEq] at h
      subst h
      refine ⟨rfl, ?_⟩
      intro k hk
      rw [if_neg (by omega)]
    · rw [if_neg hn, if_pos rfl] at h
      simp only [Option.some.injEq] at h
      subst h
      refine ⟨evalDataLoop_length g n 0 data, ?_⟩
      intro k hk
      rw [evalDataLoop_getElem g n 0 data k (by omega) hk]
      by_cases hkn : (k : Int) < n
      · rw [if_pos ⟨by omega, hkn⟩, if_pos hkn]
      · rw [if_neg (by omega), if_neg hkn]
  · unfold EvalData
    rw [if_neg (by omega), if_pos rfl]
    refine congrArg some (List.ext_getElem? ?_)
    intro k
    by_cases hk : k < 5
    · rw [evalDataLoop_getElem _ 5 0 _ k (by omega)
        (by simp only [List.length_cons, List.length_nil]; omega),
        if_pos ⟨by omega, by omega⟩]
      interval_cases k <;> decide
    · rw [List.getElem?_eq_none (by
          rw [evalDataLoop_length]
          simp only [List.length_cons, List.length_nil]
          omega),
        List.getElem?_eq_none (by
          simp only [List.length_cons, List.length_nil]
          omega)]

theorem eval_host_spec_witness :
    EvalData kCudaStreamInvalid ([7, 7, 7, 7, 7] : List Int) 5
        (fun i => i * i)
      = some [0, 1, 4, 9, 16] :=
  (eval_host_spec (fun (s : Int) (i : Int) => s + i) 0 5
    ([7, 7, 7, 7, 7] : List Int) (fun i => i * i)).2.2.2.2.2

/-- C7: with the invalid/host sentinel stream, `Eval2(stream, m, n, f)`
invokes `f(i, j)` exactly once for each pair in `[0, m) × [0, n)` via
nested sequential loops with `j` varying fastest: the result is the left
fold of `f` over the row-major enumeration, which is strictly
lexicographically ordered (hence duplicate-free) and contains exactly
the pairs of `[0, m) × [0, n)`; concretely the enumeration for
`m = 2, n = 3` is the six pairs `(0,0) … (1,2)`. -/
theorem eval2_host_spec {σ : Type} (f : σ → Int → Int → σ) (s : σ)
    (m n : Int) :
    Eval2 kCudaStreamInvalid m n f s
      = some (List.foldl (fun a p => f a p.1 p.2) s (rowMajorPairs m n)) ∧
    (rowMajorPairs m n).Pairwise
      (fun p q => p.1 < q.1 ∨ (p.1 = q.1 ∧ p.2 < q.2)) ∧
    (rowMajorPairs m n).Nodup ∧
    (∀ p : Int × Int, p ∈ rowMajorPairs m n ↔
      0 ≤ p.1 ∧ p.1 < m ∧ 0 ≤ p.2 ∧ p.2 < n) ∧
    rowMajorPairs 2 3 = [(0, 0), (0, 1), (0, 2), (1, 0), (1, 1), (1, 2)]
    := by
  refine ⟨?_, rowMajorPairs_pairwise m n, rowMajorPairs_nodup m n,
    fun p => rowMajorPairs_mem m n p, ?_⟩
  · unfold Eval2
    by_cases h : m ≤ 0 ∨ n ≤ 0
    · rw [if_pos h]
      have hnil : rowMajorPairs m n = [] := by
        rcases h with h | h
        · unfold rowMajorPairs
          rw [intsFrom, if_neg (by omega)]
          rfl
        · unfold rowMajorPairs
          rw [show intsFrom 0 n = [] by rw [intsFrom, if_neg (by omega)]]
          simp
      rw [hnil]
      rfl
    · rw [if_neg h, if_pos rfl, eval2Outer_eq_foldl]
      rfl
  · have h2 : intsFrom 0 2 = [0, 1] := by
      rw [intsFrom, if_pos (by omega), intsFrom, if_pos (by omega),
        intsFrom, if_neg (by omega)]
      norm_num
    have h3 : intsFrom 0 3 = [0, 1, 2] := by
      rw [intsFrom, if_pos (by omega), intsFrom, if_pos (by omega),
        intsFrom, if_pos (by omega), intsFrom, if_neg (by omega)]
      norm_num
    unfold rowMajorPairs
    rw [h2, h3]
    rfl

/-- C8: for every `n <= 0`, both `Eval` forms return immediately without
invoking the lambda (the state and the buffer are returned unchanged, for
every lambda and every stream), and for `m <= 0` or `n <= 0`, `Eval2` is
a no-op that never invokes the lambda. -/
theorem eval_nonpositive_noop {σ α : Type} (stream : Nat) (n m k : Int)
    (f : σ → Int → σ) (s : σ) (data : List α) (g : Int → α)
    (f2 : σ → Int → Int → σ) :
    (n ≤ 0 → Eval stream n f s = some s ∧
      EvalData stream data n g = some data) ∧
    (m ≤ 0 ∨ k ≤ 0 → Eval2 stream m k f2 s = some s) := by
  constructor
  · intro h
    constructor
    · unfold Eval
      rw [if_pos h]
    · unfold EvalData
      rw [if_pos h]
  · intro h
    unfold Eval2
    rw [if_pos h]

theorem eval_nonpositive_noop_witness :
    ((-1 : Int) ≤ 0 ∧ (0 : Int) ≤ 0 ∧ ((0 : Int) ≤ 0 ∨ ¬(3 : Int) ≤ 0)) ∧
    Eval 12345 (-1) (fun (c : Nat) (_ : Int) => c + 1) 0 = some 0 ∧
    Eval 12345 0 (fun (c : Nat) (_ : Int) => c + 1) 0 = some 0 ∧
    EvalData 12345 ([5, 6] : List Nat) (-1) (fun _ => 9) = some [5, 6] ∧
    Eval2 12345 0 3 (fun (c : Nat) (_ _ : Int) => c + 1) 0 = some 0 :=
  ⟨⟨by decide, by decide, Or.inl (by decide)⟩,
    ((eval_nonpositive_noop 12345 (-1) 0 3
      (fun (c : Nat) (_ : Int) => c + 1) 0 ([5, 6] : List Nat)
      (fun _ => 9) (fun (c : Nat) (_ _ : Int) => c + 1)).1
      (by decide)).1,
    ((eval_nonpositive_noop 12345 0 0 3
      (fun (c : Nat) (_ : Int) => c + 1) 0 ([5, 6] : List Nat)
      (fun _ => 9) (fun (c : Nat) (_ _ : Int) => c + 1)).1
      (by decide)).1,
    ((eval_nonpositive_noop 12345 (-1) 0 3
      (fun (c : Nat) (_ : Int) => c + 1) 0 ([5, 6] : List Nat)
      (fun _ => 9) (fun (c : Nat) (_ _ : Int) => c + 1)).1
      (by decide)).2,
    (eval_nonpositive_noop 12345 (-1) 0 3
      (fun (c : Nat) (_ : Int) => c + 1) 0 ([5, 6] : List Nat)
      (fun _ => 9) (fun (c : Nat) (_ _ : Int) => c + 1)).2
      (Or.inl (by decide))⟩

end K2
